import Mathlib

/-!
Verification of the resilient access layer of the mcp-joplin server:
the connection lifecycle state machine (`src/models/connection.py`,
`src/services/connection_manager.py`), the token-bucket rate limiter
(`src/services/rate_limiter.py`) and the scoring/caching search service
(`src/services/search_service.py`).

The Python code is shallowly embedded: mutable objects become explicit
state passing, `raise`/`except` becomes `Except` with the state at the
moment of the raise carried along, Python `float` arithmetic is modelled
over `ℚ` (every constant in the code is decimal and every claim is about
exact algebraic relationships, not rounding), and `time.time()` becomes
an explicit `now : ℚ` argument.  Pydantic field validation (note-id shape,
numeric range re-checks) is plumbing outside the claims and is not
modelled.
-/

namespace JoplinCore

/-! ## Connection state machine — `src/models/connection.py` -/

/-- The four connection lifecycle states (`ConnectionState` enum). -/
inductive ConnectionState where
  | disconnected
  | connecting
  | connected
  | error
deriving DecidableEq, Repr

/-- The fields of `Connection` that the state machine reads or writes.
`base_url`, `api_token`, `timeout` and `rate_limit` never influence the
transition logic and are omitted. -/
structure Connection where
  is_connected : ConnectionState
  last_error : Option String
  retry_count : Nat
  max_retries : Nat
deriving DecidableEq, Repr

/-- The `valid_transitions` table of `Connection.transition_to`. -/
def validTransition : ConnectionState → ConnectionState → Bool
  | ConnectionState.disconnected, ConnectionState.connecting => true
  | ConnectionState.connecting, ConnectionState.connected => true
  | ConnectionState.connecting, ConnectionState.error => true
  | ConnectionState.connecting, ConnectionState.disconnected => true
  | ConnectionState.connected, ConnectionState.disconnected => true
  | ConnectionState.connected, ConnectionState.error => true
  | ConnectionState.error, ConnectionState.connecting => true
  | ConnectionState.error, ConnectionState.disconnected => true
  | _, _ => false

/-- Model of `Connection.transition_to`: raises (returns `.error`) when the pair is
not in the table; otherwise sets the state, records `error_message` on a
transition to `error` when a message is given, and clears `last_error`
and `retry_count` on a transition to `connected`.  The Python `raise`
happens before any field assignment, so the error case leaves the object
untouched; the `Except` embedding makes that explicit because the error
branch returns no connection at all and every caller keeps its old one. -/
def transitionTo (c : Connection) (s : ConnectionState) (msg : Option String) :
    Except String Connection :=
  if validTransition c.is_connected s then
    let c1 : Connection := { c with is_connected := s }
    if s = ConnectionState.error then
      match msg with
      | some m => Except.ok { c1 with last_error := some m }
      | none => Except.ok c1
    else if s = ConnectionState.connected then
      Except.ok { c1 with last_error := none, retry_count := 0 }
    else
      Except.ok c1
  else
    Except.error "Invalid state transition"

/-- The call `transition_to` as Python executes it on a mutable object: the pair is
the object after the call and whether a `ValueError` was raised. -/
def transitionToRun (c : Connection) (s : ConnectionState) (msg : Option String) :
    Connection × Bool :=
  match transitionTo c s msg with
  | Except.ok c1 => (c1, false)
  | Except.error _ => (c, true)

/-- Model of `Connection.increment_retry`. -/
def incrementRetry (c : Connection) : Connection :=
  { c with retry_count := c.retry_count + 1 }

/-- Model of `Connection.reset_retry`. -/
def resetRetry (c : Connection) : Connection :=
  { c with retry_count := 0 }

/-- The connection held by a freshly constructed `ConnectionManager`:
state `disconnected`, no error, zero retries. -/
def connInit (m : Nat) : Connection :=
  { is_connected := ConnectionState.disconnected
    last_error := none
    retry_count := 0
    max_retries := m }

/-! ## ConnectionManager — `src/services/connection_manager.py`

`_connect_with_retry` is a `while connection.can_retry()` loop whose body
is a `try`/`except`.  The only fallible statements inside the `try` are
the `transition_to` calls (`JoplinClient.ping` catches every exception and
returns a `bool`), so the probe is modelled as `probe : Nat → Bool` giving
the result of the n-th ping of the call.  The `except` block increments
the retry counter and transitions to `error`; an exception raised inside
the `except` block propagates out of the method.

The loop is embedded with explicit fuel.  Every iteration that neither
returns nor raises increments `retry_count` at least once and the guard
is `retry_count < max_retries`, so `max_retries + 1` units of fuel are
never exhausted before the guard fails; the fuel-0 branch returns the
same `False` as the guard-false branch, so the embedding computes exactly
the Python loop. -/

/-- Result of a manager call: `outcome` is the returned bool or the
propagated exception, `conn` is the connection object afterwards,
`probes` counts ping calls, `trace` lists every intermediate connection
value (most recent first). -/
structure RetryResult where
  outcome : Except String Bool
  conn : Connection
  probes : Nat
  trace : List Connection
deriving Repr

/-- The `except Exception` block of `_connect_with_retry`: increment the
counter, transition to `error` with the composed message, then either
loop again (via `.inr`) after transitioning back to `disconnected`, or
exit (via `.inl`) by `break` (returning `False`) or by propagating a
second exception. -/
def handleExcept (c : Connection) (e : String) (k : Nat) (tr : List Connection) :
    RetryResult ⊕ (Connection × List Connection) :=
  let c1 := incrementRetry c
  let msg := "Connection attempt " ++ toString c1.retry_count ++ " failed: " ++ e
  let tr1 := c1 :: tr
  match transitionTo c1 ConnectionState.error (some msg) with
  | Except.error e2 => Sum.inl ⟨Except.error e2, c1, k, tr1⟩
  | Except.ok c2 =>
    let tr2 := c2 :: tr1
    if c2.retry_count < c2.max_retries then
      match transitionTo c2 ConnectionState.disconnected none with
      | Except.error e3 => Sum.inl ⟨Except.error e3, c2, k, tr2⟩
      | Except.ok c3 => Sum.inr (c3, c3 :: tr2)
    else
      Sum.inl ⟨Except.ok false, c2, k, tr2⟩

/-- The `while connection.can_retry()` loop of `_connect_with_retry`. -/
def connectLoop (probe : Nat → Bool) : Nat → Connection → Nat → List Connection → RetryResult
  | 0, c, k, tr => ⟨Except.ok false, c, k, tr⟩
  | fuel + 1, c, k, tr =>
    if c.retry_count < c.max_retries then
      let step1 : Except String (Connection × List Connection) :=
        if c.is_connected = ConnectionState.connecting then Except.ok (c, tr)
        else
          match transitionTo c ConnectionState.connecting none with
          | Except.ok c1 => Except.ok (c1, c1 :: tr)
          | Except.error e => Except.error e
      match step1 with
      | Except.error e =>
        match handleExcept c e k tr with
        | Sum.inl r => r
        | Sum.inr (c9, tr9) => connectLoop probe fuel c9 k tr9
      | Except.ok (c1, tr1) =>
        if probe k then
          match transitionTo c1 ConnectionState.connected none with
          | Except.error e =>
            match handleExcept c1 e (k + 1) tr1 with
            | Sum.inl r => r
            | Sum.inr (c9, tr9) => connectLoop probe fuel c9 (k + 1) tr9
          | Except.ok c2 => ⟨Except.ok true, c2, k + 1, c2 :: tr1⟩
        else
          match transitionTo c1 ConnectionState.error (some "Connection failed") with
          | Except.error e =>
            match handleExcept c1 e (k + 1) tr1 with
            | Sum.inl r => r
            | Sum.inr (c9, tr9) => connectLoop probe fuel c9 (k + 1) tr9
          | Except.ok c2 =>
            let c3 := incrementRetry c2
            let tr3 := c3 :: c2 :: tr1
            if c3.retry_count < c3.max_retries then
              match transitionTo c3 ConnectionState.disconnected none with
              | Except.error e =>
                match handleExcept c3 e (k + 1) tr3 with
                | Sum.inl r => r
                | Sum.inr (c9, tr9) => connectLoop probe fuel c9 (k + 1) tr9
              | Except.ok c4 => connectLoop probe fuel c4 (k + 1) (c4 :: tr3)
            else
              let finalMsg := "Failed after " ++ toString c3.retry_count ++ " attempts"
              match transitionTo c3 ConnectionState.error (some finalMsg) with
              | Except.error e =>
                match handleExcept c3 e (k + 1) tr3 with
                | Sum.inl r => r
                | Sum.inr (c9, tr9) => connectLoop probe fuel c9 (k + 1) tr9
              | Except.ok c4 => connectLoop probe fuel c4 (k + 1) (c4 :: tr3)
    else ⟨Except.ok false, c, k, tr⟩

/-- Model of `ConnectionManager._connect_with_retry`. -/
def connectWithRetry (probe : Nat → Bool) (c : Connection) : RetryResult :=
  let c0 := resetRetry c
  connectLoop probe (c0.max_retries + 1) c0 0 [c0]

/-- Model of `ConnectionManager.ensure_connected`: when already `connected`, ping;
on success return `True`, otherwise transition to `disconnected` and fall
through to the retry loop.  Otherwise run the retry loop directly. -/
def ensureConnected (probe : Nat → Bool) (c : Connection) : RetryResult :=
  if c.is_connected = ConnectionState.connected then
    if probe 0 then ⟨Except.ok true, c, 1, []⟩
    else
      match transitionTo c ConnectionState.disconnected none with
      | Except.error e => ⟨Except.error e, c, 1, []⟩
      | Except.ok c1 =>
        let r := connectWithRetry (fun n => probe (n + 1)) c1
        ⟨r.outcome, r.conn, r.probes + 1, r.trace ++ [c1]⟩
  else connectWithRetry probe c

/-- A probe that always reports failure (ping returns `False` every time). -/
def probeFalse : Nat → Bool := fun _ => false

/-- A fresh manager with `max_retries = 3`. -/
def connInit3 : Connection := connInit 3

/-- The transition table exactly as the claim lists it:
Disconnected→Connecting; Connecting→Connected/Error/Disconnected;
Connected→Disconnected/Error; Error→Connecting/Disconnected. -/
def specAllowed : ConnectionState → ConnectionState → Prop := fun a b =>
  (a = ConnectionState.disconnected ∧ b = ConnectionState.connecting) ∨
  (a = ConnectionState.connecting ∧
    (b = ConnectionState.connected ∨ b = ConnectionState.error ∨
     b = ConnectionState.disconnected)) ∨
  (a = ConnectionState.connected ∧
    (b = ConnectionState.disconnected ∨ b = ConnectionState.error)) ∨
  (a = ConnectionState.error ∧
    (b = ConnectionState.connecting ∨ b = ConnectionState.disconnected))

/-! ## RateLimiter — `src/services/rate_limiter.py`

`time.time()` becomes an explicit `now` argument; `tokens`, rates and
timestamps are `ℚ`.  The asyncio lock only serializes the operations and
has no sequential content. -/

structure RateLimiter where
  requests_per_minute : ℚ
  burst_size : ℚ
  tokens : ℚ
  last_refill : ℚ
  refill_rate : ℚ
  request_times : List ℚ
deriving DecidableEq, Repr

/-- Model of `RateLimiter.__init__`: full bucket, refill rate `rpm / 60`. -/
def rlInit (rpm burst now : ℚ) : RateLimiter :=
  { requests_per_minute := rpm
    burst_size := burst
    tokens := burst
    last_refill := now
    refill_rate := rpm / 60
    request_times := [] }

/-- Model of `RateLimiter._refill_tokens`: when time has elapsed, add
`elapsed * refill_rate` tokens capped at `burst_size`, stamp
`last_refill`, and drop request times older than 60 seconds (the deque is
popped from the left while the head is older than the cutoff). -/
def refillTokens (rl : RateLimiter) (now : ℚ) : RateLimiter :=
  let elapsed := now - rl.last_refill
  if 0 < elapsed then
    { rl with
        tokens := min rl.burst_size (rl.tokens + elapsed * rl.refill_rate)
        last_refill := now
        request_times := rl.request_times.dropWhile (fun t => decide (t < now - 60)) }
  else rl

/-- Model of `RateLimiter.acquire`: refill, then either subtract the requested
tokens and record the timestamp (returning `True`) or leave the bucket
untouched (returning `False`). -/
def rlAcquire (rl : RateLimiter) (now req : ℚ) : RateLimiter × Bool :=
  let rl1 := refillTokens rl now
  if req ≤ rl1.tokens then
    ({ rl1 with
        tokens := rl1.tokens - req
        request_times := rl1.request_times ++ [now] }, true)
  else (rl1, false)

/-- Model of `RateLimiter.reset`. -/
def rlReset (rl : RateLimiter) (now : ℚ) : RateLimiter :=
  { rl with tokens := rl.burst_size, last_refill := now, request_times := [] }

/-- Model of `RateLimiter.configure`: optionally update the per-minute rate (and
the derived per-second rate), optionally update the burst size clamping
the current tokens down to the new capacity. -/
def rlConfigure (rl : RateLimiter) (orpm oburst : Option ℚ) : RateLimiter :=
  let rl1 :=
    match orpm with
    | some r => { rl with requests_per_minute := r, refill_rate := r / 60 }
    | none => rl
  match oburst with
  | some b => { rl1 with burst_size := b, tokens := min rl1.tokens b }
  | none => rl1

/-- The state mutation performed by `RateLimiter.get_status` (a refill
pass; the reported dictionary itself reads the state without changing
it). -/
def rlStatusPass (rl : RateLimiter) (now : ℚ) : RateLimiter :=
  refillTokens rl now

/-- One rate-limiter operation with its call-time arguments. -/
inductive RLOp where
  | acq (now req : ℚ)
  | res (now : ℚ)
  | conf (orpm oburst : Option ℚ)
  | status (now : ℚ)

/-- Parameter sanity for an operation: requested token counts and newly
configured rates/capacities are non-negative (in the code they are
non-negative ints coming from configuration). -/
def RLOp.valid : RLOp → Prop
  | RLOp.acq _ req => 0 ≤ req
  | RLOp.res _ => True
  | RLOp.conf orpm oburst =>
      (∀ r, orpm = some r → 0 ≤ r) ∧ (∀ b, oburst = some b → 0 ≤ b)
  | RLOp.status _ => True

def runRLOp : RLOp → RateLimiter → RateLimiter
  | RLOp.acq now req, rl => (rlAcquire rl now req).1
  | RLOp.res now, rl => rlReset rl now
  | RLOp.conf orpm oburst, rl => rlConfigure rl orpm oburst
  | RLOp.status now, rl => rlStatusPass rl now

def runRLOps (ops : List RLOp) (rl : RateLimiter) : RateLimiter :=
  ops.foldl (fun s op => runRLOp op s) rl

/-- The token-bucket invariant together with the sign facts that keep it
inductive. -/
def rlInv (rl : RateLimiter) : Prop :=
  0 ≤ rl.tokens ∧ rl.tokens ≤ rl.burst_size ∧ 0 ≤ rl.burst_size ∧ 0 ≤ rl.refill_rate

/-! ## SearchService — `src/services/search_service.py`

Python strings are modelled as `List Char`.  `str.lower` is per-character
lowercasing, `str.strip`/`str.split` use the whitespace class, regex use
is limited to escaped-literal patterns (`re.escape`) so `re.findall`
counting and `\b`-bounded search are given direct positional semantics. -/

/-- A raw note record returned by the upstream search
(`{id, title, body?, tags?}`; a missing body/tags reads as `""`/`[]`
through `item.get`). -/
structure Item where
  id : List Char
  title : List Char
  body : List Char
  tags : List (List Char)
deriving DecidableEq, Repr

def lowerStr (l : List Char) : List Char := l.map Char.toLower

def isWs (c : Char) : Bool := c.isWhitespace

/-- Python `str.strip()`: drop whitespace from both ends. -/
def stripStr (l : List Char) : List Char :=
  ((l.dropWhile isWs).reverse.dropWhile isWs).reverse

/-- Python `p in s` on strings: `p` occurs as a contiguous substring
(always true for empty `p`). -/
def isSub (p s : List Char) : Bool :=
  (List.range (s.length + 1)).any fun i => p.isPrefixOf (s.drop i)

/-- Python `s.find(p)` restricted to found/not-found: index of the leftmost
occurrence (`0` for empty `p`), `none` for Python's `-1`. -/
def firstOccur (p s : List Char) : Option Nat :=
  (List.range (s.length + 1)).find? fun i => p.isPrefixOf (s.drop i)

/-- Non-overlapping occurrence count for a non-empty literal pattern:
scan left to right, resuming after each match (the semantics of
`re.findall(re.escape(p), s)`). -/
def countOcc (p : List Char) : List Char → Nat
  | [] => 0
  | c :: rest =>
    if p.isPrefixOf (c :: rest) then 1 + countOcc p (rest.drop (p.length - 1))
    else countOcc p rest
termination_by s => s.length
decreasing_by
  · simp only [List.length_drop, List.length_cons]
    omega
  · simp only [List.length_cons]
    omega

/-- Python `len(re.findall(re.escape(p), s))`: for an empty pattern the regex
engine reports a match at every position (`len(s) + 1`). -/
def bodyOccurrences (p s : List Char) : Nat :=
  if p = [] then s.length + 1 else countOcc p s

/-- Python regex `\w` over ASCII: letters, digits, underscore. -/
def wordChar (c : Char) : Bool := c.isAlphanum || c = '_'

/-- Is position `i` of `s` occupied by a word character? -/
def wordAt (s : List Char) (i : Nat) : Bool :=
  match s.drop i with
  | [] => false
  | c :: _ => wordChar c

/-- The regex `\b` assertion at position `i`: exactly one side of the
position is a word character (positions outside the string count as
non-word). -/
def boundaryAt (s : List Char) (i : Nat) : Bool :=
  (if i = 0 then false else wordAt s (i - 1)) != wordAt s i

/-- Python `re.search(r"\b" + re.escape(p) + r"\b", s)` succeeds: some position
carries a boundary, the literal `p`, and a boundary after it. -/
def wordHit (p s : List Char) : Bool :=
  (List.range (s.length + 1)).any fun i =>
    p.isPrefixOf (s.drop i) && boundaryAt s i && boundaryAt s (i + p.length)

/-- Model of `SearchService._calculate_relevance`, translated clause by clause. -/
def calcRelevance (query : List Char) (it : Item) : ℚ :=
  let q := stripStr (lowerStr query)
  let t := lowerStr it.title
  let b := lowerStr it.body
  let s1 : ℚ :=
    if isSub q t then
      1 + (if q = t then (1 / 2 : ℚ) else if q.isPrefixOf t then (3 / 10 : ℚ) else 0)
    else 0
  let m := bodyOccurrences q b
  let s2 : ℚ := if 0 < m then min (1 / 2 : ℚ) ((m : ℚ) * (1 / 10)) else 0
  let s3 : ℚ :=
    (if wordHit q t then (1 / 5 : ℚ) else 0) + (if wordHit q b then (1 / 10 : ℚ) else 0)
  let tm := it.tags.countP fun tg => isSub q (lowerStr tg)
  let s4 : ℚ := if 0 < tm then min (3 / 10 : ℚ) ((tm : ℚ) * (1 / 10)) else 0
  let score := s1 + s2 + s3 + s4
  max (1 / 10 : ℚ) (min 1 (score / 2))

/-- The scoring formula exactly as the claim words it: a sum of
independent terms — substring bonus, exact-else-prefix bonus, capped body
occurrences, whole-word bonuses, capped tag matches — then
`max 0.1 (min 1 (score / 2))`. -/
def relevanceSpec (query : List Char) (it : Item) : ℚ :=
  let q := stripStr (lowerStr query)
  let t := lowerStr it.title
  let b := lowerStr it.body
  let score : ℚ :=
    (if isSub q t then (1 : ℚ) else 0) +
    (if q = t then (1 / 2 : ℚ) else if q.isPrefixOf t then (3 / 10 : ℚ) else 0) +
    min (1 / 2 : ℚ) ((bodyOccurrences q b : ℚ) * (1 / 10)) +
    (if wordHit q t then (1 / 5 : ℚ) else 0) +
    (if wordHit q b then (1 / 10 : ℚ) else 0) +
    min (3 / 10 : ℚ) (((it.tags.countP fun tg => isSub q (lowerStr tg)) : ℚ) * (1 / 10))
  max (1 / 10 : ℚ) (min 1 (score / 2))

/-- Python `" ".join(s.split())`: skip whitespace, emit a single space between
words, drop leading and trailing whitespace.  `started` records whether a
word character has been emitted, `pend` whether whitespace has been seen
since. -/
def collapseAux : List Char → Bool → Bool → List Char
  | [], _, _ => []
  | c :: rest, started, pend =>
    if isWs c then collapseAux rest started true
    else if started && pend then ' ' :: c :: collapseAux rest true false
    else c :: collapseAux rest true false

def collapse (l : List Char) : List Char := collapseAux l false false

def dots : List Char := ['.', '.', '.']

/-- The match-window branch of `_generate_snippet`: a slice of up to 200
characters around the first occurrence at `pos`, `...`-marked on any
truncated side, whitespace runs collapsed.  `max(0, ·)` is natural
subtraction. -/
def snippetWindow (body : List Char) (pos : Nat) : List Char :=
  let startPos := pos - 50
  let endPos := min body.length (startPos + 200)
  let startPos2 := if endPos - startPos < 200 then endPos - 200 else startPos
  let raw := (body.drop startPos2).take (endPos - startPos2)
  let withL := if 0 < startPos2 then dots ++ raw else raw
  let withR := if endPos < body.length then withL ++ dots else withL
  collapse withR

/-- Model of `SearchService._generate_snippet`.  Window positions are computed on
the lowercased body and sliced out of the original body (same length). -/
def generateSnippet (query : List Char) (it : Item) : List Char :=
  let q := stripStr (lowerStr query)
  if isSub q (lowerStr it.title) then it.title.take 200
  else if it.body = [] then it.title.take 200
  else
    match firstOccur q (lowerStr it.body) with
    | none =>
      (if it.title.length < it.body.length then it.body else it.title).take 200
    | some pos => snippetWindow it.body pos

/-- Model of `SearchService._sanitize_query`: collapse whitespace runs, cap the
length at 200.  (Defined in the source but never invoked.) -/
def sanitizeQuery (q : List Char) : List Char :=
  if q = [] then []
  else
    let q1 := collapse q
    if 200 < q1.length then q1.take 200 else q1

/-- A scored result (`SearchResultItem` fields used by the core). -/
structure ResultItem where
  note_id : List Char
  title : List Char
  snippet : List Char
  relevance_score : ℚ
deriving DecidableEq, Repr

/-- Building one `SearchResultItem` from a raw item in `search_notes`. -/
def scoreItem (query : List Char) (it : Item) : ResultItem :=
  { note_id := it.id
    title := it.title
    snippet := generateSnippet query it
    relevance_score := calcRelevance query it }

/-- Insertion step of a stable descending sort by `relevance_score`: an
element passes over strictly greater scores and lands before the first
element whose score is not strictly greater, so earlier elements precede
equal-scored later ones.  `list.sort(key=..., reverse=True)` is Python's
stable sort; a stable sort by one key is uniquely determined by its
input, so stable insertion sort computes the same list. -/
def insertDesc (x : ResultItem) : List ResultItem → List ResultItem
  | [] => [x]
  | y :: ys =>
    if x.relevance_score < y.relevance_score then y :: insertDesc x ys
    else x :: y :: ys

def sortDesc : List ResultItem → List ResultItem
  | [] => []
  | x :: xs => insertDesc x (sortDesc xs)

/-- The `SearchCache` plus the service's cleanup stamp.  The dict is an
association list with pairwise-distinct keys (the Python dict cannot hold
duplicates); `wfCache` states that well-formedness. -/
structure SearchState where
  cache : List (List Char × ℚ × List ResultItem)
  ttl : ℚ
  lastCleanup : ℚ
deriving DecidableEq, Repr

def wfCache (st : SearchState) : Prop :=
  st.cache.Pairwise fun a b => a.1 ≠ b.1

/-- Model of `SearchService._create_cache_key`:
`f"{query.strip().lower()}:{limit}:{notebook_id or 'all'}"` (a falsy —
absent or empty — notebook id becomes `"all"`). -/
def createCacheKey (query : List Char) (limit : Nat) (nb : Option (List Char)) :
    List Char :=
  lowerStr (stripStr query) ++ [':'] ++ (toString limit).data ++ [':'] ++
    (match nb with
     | some s => if s = [] then ['a', 'l', 'l'] else s
     | none => ['a', 'l', 'l'])

/-- Model of `SearchCache.get`: absent key gives `None`; an entry strictly older
than `ttl` is deleted and gives `None`; otherwise the stored list. -/
def cacheGet (st : SearchState) (now : ℚ) (key : List Char) :
    Option (List ResultItem) × SearchState :=
  match st.cache.find? (fun e => decide (e.1 = key)) with
  | none => (none, st)
  | some e =>
    if st.ttl < now - e.2.1 then
      (none, { st with cache := st.cache.filter fun e2 => decide (¬ e2.1 = key) })
    else (some e.2.2, st)

/-- Model of `SearchCache.set`: store under the key with the current timestamp
(dict assignment replaces any previous entry; insertion order is not
observable through `get`). -/
def cacheSet (st : SearchState) (now : ℚ) (key : List Char)
    (items : List ResultItem) : SearchState :=
  { st with cache := (key, now, items) :: st.cache.filter fun e => decide (¬ e.1 = key) }

/-- Model of `SearchCache.cleanup_expired`. -/
def cleanupExpired (st : SearchState) (now : ℚ) : SearchState :=
  { st with cache := st.cache.filter fun e => decide (¬ st.ttl < now - e.2.1) }

/-- Model of `SearchService._maybe_cleanup_cache`: sweep at most every 300 s. -/
def maybeCleanup (st : SearchState) (now : ℚ) : SearchState :=
  if 300 < now - st.lastCleanup then
    { cleanupExpired st now with lastCleanup := now }
  else st

/-- Python truthiness of `cached_results`: a present, non-empty list. -/
def truthy : Option (List ResultItem) → Bool
  | some (_ :: _) => true
  | _ => false

/-- The `SearchResult` fields the claims are about. -/
structure SRes where
  items : List ResultItem
  total_count : Nat
  has_more : Bool
deriving DecidableEq, Repr

/-- A `search_notes` call: the returned result, the service state
afterwards, and the upstream `search_notes(query, limit=...)` calls made
(query and limit actually passed). -/
structure SearchOutcome where
  result : SRes
  state : SearchState
  calls : List (List Char × Nat)
deriving DecidableEq, Repr

/-- The cache-miss path of `search_notes`: fetch `limit * 2` candidates,
return empty on no items, otherwise score, stable-sort descending,
truncate to `limit`, cache, and report `has_more = len(items) > limit`. -/
def searchNotesMiss (st : SearchState) (up : List Char → Nat → Option (List Char) → List Item)
    (now : ℚ) (query : List Char) (limit : Nat) (nb : Option (List Char))
    (key : List Char) : SearchOutcome :=
  let raw := up query (limit * 2) nb
  if raw = [] then ⟨⟨[], 0, false⟩, st, [(query, limit * 2)]⟩
  else
    let scored := raw.map (scoreItem query)
    let final := (sortDesc scored).take limit
    ⟨⟨final, final.length, decide (limit < raw.length)⟩,
     cacheSet st now key final, [(query, limit * 2)]⟩

/-- Model of `SearchService.search_notes`: periodic sweep, cache lookup keyed on
the raw query (stripped and lowercased inside the key), verbatim return
on a truthy hit, otherwise the miss path.  The query is passed to the
upstream exactly as received. -/
def searchNotes (st : SearchState) (up : List Char → Nat → Option (List Char) → List Item)
    (now : ℚ) (query : List Char) (limit : Nat) (nb : Option (List Char)) :
    SearchOutcome :=
  let st1 := maybeCleanup st now
  let key := createCacheKey query limit nb
  let r := cacheGet st1 now key
  match r.1 with
  | some (x :: xs) => ⟨⟨x :: xs, (x :: xs).length, false⟩, r.2, []⟩
  | some [] => searchNotesMiss r.2 up now query limit nb key
  | none => searchNotesMiss r.2 up now query limit nb key

/-- The ranking contract of the cache-miss path of `search_notes`, for a
given upstream function and call: one upstream request for `limit * 2`
candidates; the returned items are the first `limit` of the stable
descending sort of the scored candidates; they are sorted by
non-increasing score; items of equal score keep the upstream order (the
sort leaves every equal-score fibre of the candidate list unchanged);
`has_more` holds exactly when the upstream returned more than `limit`
candidates. -/
def rankingOk (up : List Char → Nat → Option (List Char) → List Item)
    (query : List Char) (limit : Nat) (nb : Option (List Char))
    (out : SearchOutcome) : Prop :=
  out.calls = [(query, limit * 2)] ∧
  out.result.items =
    (sortDesc ((up query (limit * 2) nb).map (scoreItem query))).take limit ∧
  out.result.items.Pairwise (fun a b => b.relevance_score ≤ a.relevance_score) ∧
  (∀ s : ℚ,
    (sortDesc ((up query (limit * 2) nb).map (scoreItem query))).filter
        (fun z => decide (z.relevance_score = s)) =
      ((up query (limit * 2) nb).map (scoreItem query)).filter
        (fun z => decide (z.relevance_score = s))) ∧
  (out.result.has_more = true ↔ limit < (up query (limit * 2) nb).length)

/-- No live non-empty entry for `key`: every cache row carrying `key`
stores the empty item list. -/
def noHit (cache : List (List Char × ℚ × List ResultItem)) (key : List Char) : Prop :=
  ∀ e ∈ cache, e.1 = key → e.2.2 = []

/-- The behaviour claimed for empty upstream result sets: empty result,
no cache write (the state is exactly the post-lookup state), and a
repetition of the query hits the upstream again. -/
def missNoWrite (st : SearchState) (up : List Char → Nat → Option (List Char) → List Item)
    (now now2 : ℚ) (q : List Char) (limit : Nat) (nb : Option (List Char)) : Prop :=
  let o1 := searchNotes st up now q limit nb
  let o2 := searchNotes o1.state up now2 q limit nb
  o1.result.items = [] ∧ o1.result.total_count = 0 ∧ o1.result.has_more = false ∧
  o1.calls = [(q, limit * 2)] ∧
  o1.state = (cacheGet (maybeCleanup st now) now (createCacheKey q limit nb)).2 ∧
  o2.calls = [(q, limit * 2)]

/-- A fresh search service: empty cache, default `ttl = 300`, cleanup
stamp at construction time 0. -/
def st0 : SearchState := ⟨[], 300, 0⟩

/-- An upstream whose search always returns no items. -/
def upEmpty : List Char → Nat → Option (List Char) → List Item := fun _ _ _ => []

/-- An upstream returning two fixed candidates. -/
def upTwo : List Char → Nat → Option (List Char) → List Item := fun _ _ _ =>
  [⟨['1'], ['p', 'r', 'o', 'j', 'e', 'c', 't'], [], []⟩,
   ⟨['2'], ['n', 'o', 't', 'e', 's'], ['p', 'r', 'o', 'j', 'e', 'c', 't'], []⟩]

/-- A query containing a run of two spaces. -/
def qDbl : List Char := ['a', ' ', ' ', 'b']

/-! ## Theorems -/

/-- C1.  The claim is false on the code: with `max_retries = 3` and a
probe that always fails, `ensure_connected` makes 3 probe attempts, not
4, and does not return `false` — the exhaustion branch attempts an
`Error → Error` transition, whose `ValueError` escapes through the
`except` block.  (The state is indeed left at `Error`.) -/
theorem claim1_counterexample :
    (ensureConnected probeFalse connInit3).probes = 3 ∧
    ¬ (ensureConnected probeFalse connInit3).probes = 4 ∧
    (ensureConnected probeFalse connInit3).outcome = Except.error "Invalid state transition" ∧
    ¬ (ensureConnected probeFalse connInit3).outcome = Except.ok false := by
  have hout : (ensureConnected probeFalse connInit3).outcome =
      Except.error "Invalid state transition" := rfl
  refine ⟨by decide, by decide, hout, ?_⟩
  rw [hout]
  intro h
  cases h

/-- C1 (amended).  With `max_retries = 3` and any always-failing probe,
`ensure_connected` makes exactly 3 probe attempts (the loop runs while
`retry_count < max_retries`), leaves the connection in state `Error`,
and instead of returning `false` propagates the invalid-transition error
raised when the exhaustion branch re-enters `Error`; `retry_count` is
left at 4. -/
theorem claim1_theorem (probe : Nat → Bool) (h : ∀ n, probe n = false) :
    (ensureConnected probe connInit3).probes = 3 ∧
    (ensureConnected probe connInit3).outcome = Except.error "Invalid state transition" ∧
    (ensureConnected probe connInit3).conn.is_connected = ConnectionState.error ∧
    (ensureConnected probe connInit3).conn.retry_count = 4 := by
  have hp : probe = probeFalse := funext fun n => (h n).trans rfl
  rw [hp]
  exact ⟨by decide, rfl, by decide, by decide⟩

/-- Witness for C1: the always-false probe satisfies the hypothesis and
the conclusion holds for it. -/
theorem claim1_witness :
    (ensureConnected probeFalse connInit3).probes = 3 ∧
    (ensureConnected probeFalse connInit3).outcome = Except.error "Invalid state transition" ∧
    (ensureConnected probeFalse connInit3).conn.is_connected = ConnectionState.error ∧
    (ensureConnected probeFalse connInit3).conn.retry_count = 4 :=
  claim1_theorem probeFalse fun _ => rfl

/-- C2.  The invariant `retry_count ≤ max_retries` is violated by the
code: from a fresh manager with `max_retries = 3`, `ensure_connected`
with an always-failing probe leaves `retry_count = 4` (the `except`
block increments the counter a second time after the illegal
`Error → Error` transition of the exhaustion branch raises). -/
theorem claim2_theorem :
    connInit3.max_retries = 3 ∧
    (ensureConnected probeFalse connInit3).conn.max_retries = 3 ∧
    (ensureConnected probeFalse connInit3).conn.retry_count = 4 ∧
    (ensureConnected probeFalse connInit3).conn.max_retries <
      (ensureConnected probeFalse connInit3).conn.retry_count := by
  exact ⟨rfl, by decide, by decide, by decide⟩

/-- C3.  `transition_to` raises exactly when the (current, new) pair is
outside the claim's transition table, and a raising call leaves the
connection unchanged (the assignment follows the check). -/
theorem claim3_theorem (c : Connection) (s : ConnectionState) (msg : Option String) :
    ((transitionToRun c s msg).2 = true ↔ ¬ specAllowed c.is_connected s) ∧
    ((transitionToRun c s msg).2 = true → (transitionToRun c s msg).1 = c) := by
  obtain ⟨cs, le, rc, mr⟩ := c
  constructor
  · cases msg <;> cases cs <;> cases s <;>
      simp [transitionToRun, transitionTo, validTransition, specAllowed]
  · intro h
    simp only [transitionToRun] at h ⊢
    cases htr : transitionTo ⟨cs, le, rc, mr⟩ s msg <;> simp [htr] at h ⊢

/-- Witness for C3 at a concrete illegal transition
(`Disconnected → Connected`). -/
theorem claim3_witness :
    ((transitionToRun connInit3 ConnectionState.connected none).2 = true ↔
      ¬ specAllowed connInit3.is_connected ConnectionState.connected) ∧
    ((transitionToRun connInit3 ConnectionState.connected none).2 = true →
      (transitionToRun connInit3 ConnectionState.connected none).1 = connInit3) :=
  claim3_theorem connInit3 ConnectionState.connected none

theorem refill_pos (rl : RateLimiter) (now : ℚ) (he : 0 < now - rl.last_refill) :
    refillTokens rl now =
      { rl with
          tokens := min rl.burst_size (rl.tokens + (now - rl.last_refill) * rl.refill_rate)
          last_refill := now
          request_times := rl.request_times.dropWhile fun t => decide (t < now - 60) } := by
  simp [refillTokens, he]

theorem refill_nonpos (rl : RateLimiter) (now : ℚ) (he : ¬ 0 < now - rl.last_refill) :
    refillTokens rl now = rl := by
  simp [refillTokens, he]

theorem rlInv_refill (rl : RateLimiter) (now : ℚ) (h : rlInv rl) :
    rlInv (refillTokens rl now) := by
  obtain ⟨h0, h1, h2, h3⟩ := h
  by_cases he : 0 < now - rl.last_refill
  · rw [refill_pos rl now he]
    exact ⟨le_min h2 (add_nonneg h0 (mul_nonneg he.le h3)), min_le_left _ _, h2, h3⟩
  · rw [refill_nonpos rl now he]
    exact ⟨h0, h1, h2, h3⟩

theorem rlInv_step (op : RLOp) (rl : RateLimiter) (hv : op.valid) (h : rlInv rl) :
    rlInv (runRLOp op rl) := by
  cases op with
  | acq now req =>
    have h1 := rlInv_refill rl now h
    obtain ⟨g0, g1, g2, g3⟩ := h1
    by_cases hc : req ≤ (refillTokens rl now).tokens
    · simp only [runRLOp, rlAcquire, hc, if_pos]
      exact ⟨sub_nonneg.2 hc, le_trans (sub_le_self _ hv) g1, g2, g3⟩
    · simp only [runRLOp, rlAcquire, hc, if_neg, not_false_iff]
      exact ⟨g0, g1, g2, g3⟩
  | res now =>
    obtain ⟨h0, h1, h2, h3⟩ := h
    exact ⟨h2, le_refl _, h2, h3⟩
  | conf orpm oburst =>
    obtain ⟨h0, h1, h2, h3⟩ := h
    obtain ⟨hr, hb⟩ := hv
    cases orpm with
    | none =>
      cases oburst with
      | none => exact ⟨h0, h1, h2, h3⟩
      | some b =>
        have hb2 : 0 ≤ b := hb b rfl
        exact ⟨le_min h0 hb2, min_le_right _ _, hb2, h3⟩
    | some r =>
      have hr2 : 0 ≤ r := hr r rfl
      have hr3 : (0 : ℚ) ≤ r / 60 := div_nonneg hr2 (by norm_num)
      cases oburst with
      | none => exact ⟨h0, h1, h2, hr3⟩
      | some b =>
        have hb2 : 0 ≤ b := hb b rfl
        exact ⟨le_min h0 hb2, min_le_right _ _, hb2, hr3⟩
  | status now => exact rlInv_refill rl now h

theorem rlInv_runs (ops : List RLOp) (rl : RateLimiter)
    (hv : ∀ op ∈ ops, op.valid) (h : rlInv rl) : rlInv (runRLOps ops rl) := by
  induction ops generalizing rl with
  | nil => exact h
  | cons op ops ih =>
    exact ih (runRLOp op rl) (fun o ho => hv o (List.mem_cons_of_mem _ ho))
      (rlInv_step op rl (hv op (List.mem_cons_self _ _)) h)

/-- C4.  Along any sequence of rate-limiter operations with non-negative
parameters, `0 ≤ tokens ≤ burst_size` holds; a successful `acquire`
lowers the token count by exactly the amount requested relative to the
post-refill value, and a failed one leaves it at the post-refill
value. -/
theorem claim4_theorem (rpm burst now0 : ℚ) (ops : List RLOp)
    (hrpm : 0 ≤ rpm) (hburst : 0 ≤ burst) (hv : ∀ op ∈ ops, op.valid) :
    (0 ≤ (runRLOps ops (rlInit rpm burst now0)).tokens ∧
      (runRLOps ops (rlInit rpm burst now0)).tokens ≤
        (runRLOps ops (rlInit rpm burst now0)).burst_size) ∧
    ∀ (rl : RateLimiter) (now req : ℚ),
      ((rlAcquire rl now req).2 = true →
        (rlAcquire rl now req).1.tokens = (refillTokens rl now).tokens - req) ∧
      ((rlAcquire rl now req).2 = false →
        (rlAcquire rl now req).1.tokens = (refillTokens rl now).tokens) := by
  constructor
  · have h0 : rlInv (rlInit rpm burst now0) :=
      ⟨hburst, le_refl _, hburst, div_nonneg hrpm (by norm_num)⟩
    have h1 := rlInv_runs ops (rlInit rpm burst now0) hv h0
    exact ⟨h1.1, h1.2.1⟩
  · intro rl now req
    by_cases hc : req ≤ (refillTokens rl now).tokens
    · constructor
      · intro _
        simp [rlAcquire, hc]
      · intro hfalse
        simp [rlAcquire, hc] at hfalse
    · constructor
      · intro htrue
        simp [rlAcquire, hc] at htrue
      · intro _
        simp [rlAcquire, hc]

/-- Witness for C4: the default configuration (60 rpm, burst 10) and the
sequence acquire–reset–status. -/
theorem claim4_witness :
    (0 ≤ (runRLOps [RLOp.acq 0 1, RLOp.res 1, RLOp.status 2] (rlInit 60 10 0)).tokens ∧
      (runRLOps [RLOp.acq 0 1, RLOp.res 1, RLOp.status 2] (rlInit 60 10 0)).tokens ≤
        (runRLOps [RLOp.acq 0 1, RLOp.res 1, RLOp.status 2] (rlInit 60 10 0)).burst_size) ∧
    ∀ (rl : RateLimiter) (now req : ℚ),
      ((rlAcquire rl now req).2 = true →
        (rlAcquire rl now req).1.tokens = (refillTokens rl now).tokens - req) ∧
      ((rlAcquire rl now req).2 = false →
        (rlAcquire rl now req).1.tokens = (refillTokens rl now).tokens) :=
  claim4_theorem 60 10 0 [RLOp.acq 0 1, RLOp.res 1, RLOp.status 2]
    (by norm_num) (by norm_num)
    (by
      intro op hop
      simp only [List.mem_cons, List.not_mem_nil, or_false] at hop
      rcases hop with h | h | h <;> subst h <;> simp [RLOp.valid])

/-- C8.  A refill pass `elapsed = now - last_refill ≥ 0` seconds after
the previous one sets `tokens` to
`min capacity (tokens_before + elapsed * refill_rate)` and `last_refill`
to `now` (when `elapsed = 0` the code skips the update, which coincides
with that value because `tokens ≤ capacity`). -/
theorem claim8_theorem (rl : RateLimiter) (now : ℚ)
    (h1 : rl.tokens ≤ rl.burst_size) (h2 : rl.last_refill ≤ now) :
    (refillTokens rl now).tokens =
      min rl.burst_size (rl.tokens + (now - rl.last_refill) * rl.refill_rate) ∧
    (refillTokens rl now).last_refill = now := by
  by_cases he : 0 < now - rl.last_refill
  · simp [refillTokens, he]
  · have hz : now - rl.last_refill = 0 := le_antisymm (not_lt.1 he) (sub_nonneg.2 h2)
    have hnow : now = rl.last_refill := by linarith [sub_eq_zero.1 hz]
    rw [hz]
    simp [refillTokens, he, min_eq_right h1, hnow]

/-- Witness for C8: a fresh limiter refilled one second later. -/
theorem claim8_witness :
    (refillTokens (rlInit 60 10 0) 1).tokens =
      min (rlInit 60 10 0).burst_size
        ((rlInit 60 10 0).tokens +
          (1 - (rlInit 60 10 0).last_refill) * (rlInit 60 10 0).refill_rate) ∧
    (refillTokens (rlInit 60 10 0) 1).last_refill = 1 :=
  claim8_theorem (rlInit 60 10 0) 1 (by norm_num [rlInit]) (by norm_num [rlInit])

theorem isPrefixOf_self (q : List Char) : q.isPrefixOf q = true := by
  induction q with
  | nil => rfl
  | cons a as ih => simp [List.isPrefixOf, ih]

theorem isSub_of_isPrefixOf {q t : List Char} (h : q.isPrefixOf t = true) :
    isSub q t = true := by
  unfold isSub
  rw [List.any_eq_true]
  exact ⟨0, List.mem_range.2 (Nat.succ_pos _), by simpa using h⟩

theorem isSub_of_eq {q t : List Char} (h : q = t) : isSub q t = true :=
  isSub_of_isPrefixOf (h ▸ isPrefixOf_self q)

/-- The code guards the capped bonus terms with a positivity test; the
guard is redundant because the capped term vanishes at zero. -/
theorem guardMin (cap : ℚ) (hcap : 0 ≤ cap) (m : Nat) :
    (if 0 < m then min cap ((m : ℚ) * (1 / 10)) else 0) =
      min cap ((m : ℚ) * (1 / 10)) := by
  by_cases hm : 0 < m
  · rw [if_pos hm]
  · rw [if_neg hm]
    have hz : m = 0 := by omega
    subst hz
    simp [min_eq_right hcap]

/-- The code nests the exact/starts-with bonus inside the substring test;
the claim writes it as an independent term.  They agree because an exact
or leading match is in particular a substring match. -/
theorem headTerm (PS PE PP : Prop) [Decidable PS] [Decidable PE] [Decidable PP]
    (hE : PE → PS) (hP : PP → PS) :
    (if PS then (1 : ℚ) + (if PE then 1 / 2 else if PP then 3 / 10 else 0) else 0) =
      (if PS then (1 : ℚ) else 0) +
        (if PE then (1 / 2 : ℚ) else if PP then 3 / 10 else 0) := by
  by_cases hs : PS
  · simp [hs]
  · have he : ¬ PE := fun h => hs (hE h)
    have hp : ¬ PP := fun h => hs (hP h)
    simp [hs, he, hp]

/-- C5.  `_calculate_relevance` computes exactly the claim's formula, and
its value always lies in `[0.1, 1.0]`. -/
theorem claim5_theorem (query : List Char) (it : Item) :
    calcRelevance query it = relevanceSpec query it ∧
    (1 / 10 : ℚ) ≤ calcRelevance query it ∧ calcRelevance query it ≤ 1 := by
  refine ⟨?_, ?_, ?_⟩
  · simp only [calcRelevance, relevanceSpec]
    rw [headTerm _ _ _ (fun h => isSub_of_eq h) (fun h => isSub_of_isPrefixOf h),
      guardMin _ (by norm_num) _, guardMin _ (by norm_num) _]
    ring_nf
  · simp only [calcRelevance]
    exact le_max_left _ _
  · simp only [calcRelevance]
    exact max_le (by norm_num) (min_le_left _ _)

theorem collapseAux_length (l : List Char) : ∀ s w : Bool,
    (collapseAux l s w).length ≤ l.length + (if s && w then 1 else 0) := by
  induction l with
  | nil =>
    intro s w
    simp [collapseAux]
  | cons c rest ih =>
    intro s w
    simp only [collapseAux, List.length_cons]
    by_cases hc : isWs c = true
    · rw [if_pos hc]
      have h1 := ih s true
      cases s <;> cases w <;> simp_all <;> omega
    · rw [if_neg hc]
      have h1 := ih true false
      simp only [Bool.and_false, if_neg, Bool.false_eq_true, not_false_iff] at h1
      by_cases h2 : (s && w) = true
      · rw [if_pos h2]
        simp only [h2, if_pos, List.length_cons]
        omega
      · rw [if_neg h2]
        simp only [h2, if_neg, not_false_iff, List.length_cons]
        omega

theorem collapse_length (l : List Char) : (collapse l).length ≤ l.length := by
  have h := collapseAux_length l false false
  simpa [collapse] using h

theorem snippetWindow_length (body : List Char) (pos : Nat) :
    (snippetWindow body pos).length ≤ 206 := by
  simp only [snippetWindow]
  refine le_trans (collapse_length _) ?_
  have hend : min body.length (pos - 50 + 200) ≤ pos - 50 + 200 := min_le_right _ _
  set e := min body.length (pos - 50 + 200) with he
  set s2 := (if e - (pos - 50) < 200 then e - 200 else pos - 50) with hs2
  have h2 : e - s2 ≤ 200 := by
    rw [hs2]
    split <;> omega
  have hraw : ((body.drop s2).take (e - s2)).length ≤ 200 :=
    le_trans (List.length_take_le _ _) h2
  by_cases hC : e < body.length <;> by_cases hB : 0 < s2 <;>
    simp [hC, hB, dots] <;> omega

/-- C9.  Every generated snippet is at most 200 characters of content
plus at most 6 characters of `...` markers: `len ≤ 206`. -/
theorem claim9_theorem (query : List Char) (it : Item) :
    (generateSnippet query it).length ≤ 206 := by
  unfold generateSnippet
  by_cases h1 : isSub (stripStr (lowerStr query)) (lowerStr it.title) = true
  · rw [if_pos h1]
    exact le_trans (List.length_take_le _ _) (by norm_num)
  · rw [if_neg h1]
    by_cases h2 : it.body = []
    · rw [if_pos h2]
      exact le_trans (List.length_take_le _ _) (by norm_num)
    · rw [if_neg h2]
      cases hf : firstOccur (stripStr (lowerStr query)) (lowerStr it.body) with
      | none =>
        simp only [hf]
        exact le_trans (List.length_take_le _ _) (by norm_num)
      | some pos =>
        simp only [hf]
        exact snippetWindow_length it.body pos

theorem mem_insertDesc {x z : ResultItem} {ys : List ResultItem}
    (h : z ∈ insertDesc x ys) : z = x ∨ z ∈ ys := by
  induction ys with
  | nil =>
    simp [insertDesc] at h
    exact Or.inl h
  | cons y ys ih =>
    simp only [insertDesc] at h
    split at h
    · rcases List.mem_cons.1 h with h1 | h1
      · exact Or.inr (List.mem_cons.2 (Or.inl h1))
      · rcases ih h1 with h2 | h2
        · exact Or.inl h2
        · exact Or.inr (List.mem_cons.2 (Or.inr h2))
    · rcases List.mem_cons.1 h with h1 | h1
      · exact Or.inl h1
      · exact Or.inr h1

theorem sorted_insertDesc (x : ResultItem) (ys : List ResultItem)
    (h : ys.Pairwise fun a b => b.relevance_score ≤ a.relevance_score) :
    (insertDesc x ys).Pairwise fun a b => b.relevance_score ≤ a.relevance_score := by
  induction ys with
  | nil => simp [insertDesc]
  | cons y ys ih =>
    rcases List.pairwise_cons.1 h with ⟨hy, hys⟩
    simp only [insertDesc]
    split
    · rename_i hlt
      refine List.pairwise_cons.2 ⟨?_, ih hys⟩
      intro z hz
      rcases mem_insertDesc hz with h1 | h1
      · rw [h1]
        exact le_of_lt hlt
      · exact hy z h1
    · rename_i hge
      refine List.pairwise_cons.2 ⟨?_, h⟩
      intro z hz
      rcases List.mem_cons.1 hz with h1 | h1
      · rw [h1]
        exact not_lt.1 hge
      · exact le_trans (hy z h1) (not_lt.1 hge)

theorem sorted_sortDesc (l : List ResultItem) :
    (sortDesc l).Pairwise fun a b => b.relevance_score ≤ a.relevance_score := by
  induction l with
  | nil => simp [sortDesc]
  | cons x xs ih => exact sorted_insertDesc x (sortDesc xs) ih

theorem filter_insertDesc (s : ℚ) (x : ResultItem) (ys : List ResultItem) :
    (insertDesc x ys).filter (fun z => decide (z.relevance_score = s)) =
      if x.relevance_score = s
      then x :: ys.filter (fun z => decide (z.relevance_score = s))
      else ys.filter (fun z => decide (z.relevance_score = s)) := by
  induction ys with
  | nil =>
    by_cases hx : x.relevance_score = s <;> simp [insertDesc, hx]
  | cons y ys ih =>
    simp only [insertDesc]
    split
    · rename_i hlt
      by_cases hx : x.relevance_score = s
      · have hy : ¬ y.relevance_score = s := ne_of_gt (hx ▸ hlt)
        simp [List.filter_cons, hy, hx, ih]
      · simp only [List.filter_cons, ih, hx, if_neg, not_false_iff]
    · by_cases hx : x.relevance_score = s <;> simp [List.filter_cons, hx]

theorem filter_sortDesc (s : ℚ) (l : List ResultItem) :
    (sortDesc l).filter (fun z => decide (z.relevance_score = s)) =
      l.filter (fun z => decide (z.relevance_score = s)) := by
  induction l with
  | nil => rfl
  | cons x xs ih =>
    simp only [sortDesc, filter_insertDesc, ih, List.filter_cons]
    by_cases hx : x.relevance_score = s <;> simp [hx]

/-- On a falsy cache lookup (`if cached_results:` fails), `search_notes`
runs the miss path against the post-lookup state. -/
theorem searchNotes_miss_eq (st : SearchState)
    (up : List Char → Nat → Option (List Char) → List Item) (now : ℚ)
    (q : List Char) (limit : Nat) (nb : Option (List Char))
    (hmiss : truthy (cacheGet (maybeCleanup st now) now (createCacheKey q limit nb)).1
      = false) :
    searchNotes st up now q limit nb =
      searchNotesMiss (cacheGet (maybeCleanup st now) now (createCacheKey q limit nb)).2
        up now q limit nb (createCacheKey q limit nb) := by
  simp only [searchNotes]
  cases hget : (cacheGet (maybeCleanup st now) now (createCacheKey q limit nb)).1 with
  | none => rfl
  | some items =>
    cases items with
    | nil => rfl
    | cons a as =>
      rw [hget] at hmiss
      simp [truthy] at hmiss

/-- C6.  On a cache miss the code requests `limit * 2` candidates, stably
sorts the scored candidates by descending relevance, truncates to
`limit`, and sets `has_more` iff the upstream returned more than `limit`
candidates. -/
theorem claim6_theorem (st : SearchState)
    (up : List Char → Nat → Option (List Char) → List Item) (now : ℚ)
    (q : List Char) (limit : Nat) (nb : Option (List Char))
    (hmiss : truthy (cacheGet (maybeCleanup st now) now (createCacheKey q limit nb)).1
      = false) :
    rankingOk up q limit nb (searchNotes st up now q limit nb) := by
  rw [searchNotes_miss_eq st up now q limit nb hmiss]
  simp only [searchNotesMiss, rankingOk]
  by_cases hraw : up q (limit * 2) nb = []
  · rw [if_pos hraw]
    simp [hraw, sortDesc]
  · rw [if_neg hraw]
    refine ⟨rfl, rfl, ?_, fun s => filter_sortDesc s _, by simp⟩
    exact List.Pairwise.sublist (List.take_sublist _ _)
      (sorted_sortDesc ((up q (limit * 2) nb).map (scoreItem q)))
theorem cacheGet_none (st : SearchState) (now : ℚ) (key : List Char)
    (hfind : st.cache.find? (fun e => decide (e.1 = key)) = none) :
    cacheGet st now key = (none, st) := by
  simp [cacheGet, hfind]

theorem cacheGet_expired (st : SearchState) (now : ℚ) (key : List Char)
    (e0 : List Char × ℚ × List ResultItem)
    (hfind : st.cache.find? (fun e => decide (e.1 = key)) = some e0)
    (hexp : st.ttl < now - e0.2.1) :
    cacheGet st now key =
      (none, { st with cache := st.cache.filter fun e2 => decide (¬ e2.1 = key) }) := by
  simp [cacheGet, hfind, hexp]

theorem cacheGet_fresh (st : SearchState) (now : ℚ) (key : List Char)
    (e0 : List Char × ℚ × List ResultItem)
    (hfind : st.cache.find? (fun e => decide (e.1 = key)) = some e0)
    (hexp : ¬ st.ttl < now - e0.2.1) :
    cacheGet st now key = (some e0.2.2, st) := by
  simp [cacheGet, hfind, hexp]

theorem maybeCleanup_pos (st : SearchState) (now : ℚ)
    (h : 300 < now - st.lastCleanup) :
    maybeCleanup st now = { cleanupExpired st now with lastCleanup := now } := by
  simp [maybeCleanup, h]

theorem maybeCleanup_neg (st : SearchState) (now : ℚ)
    (h : ¬ 300 < now - st.lastCleanup) :
    maybeCleanup st now = st := by
  simp [maybeCleanup, h]

/-- On a fresh service at time 0, any lookup misses without mutating. -/
theorem st0_lookup (key : List Char) : cacheGet (maybeCleanup st0 0) 0 key = (none, st0) := by
  have h1 : maybeCleanup st0 0 = st0 := maybeCleanup_neg st0 0 (by norm_num [st0])
  rw [h1]
  exact cacheGet_none st0 0 key rfl

/-- Witness for C6: a fresh service, the two-candidate upstream. -/
theorem claim6_witness :
    rankingOk upTwo ['p', 'r', 'o', 'j'] 10 none
      (searchNotes st0 upTwo 0 ['p', 'r', 'o', 'j'] 10 none) :=
  claim6_theorem st0 upTwo 0 ['p', 'r', 'o', 'j'] 10 none
    (by rw [st0_lookup]; rfl)

/-- C7.  The claim is false on the code: `search_notes` passes the query
to the upstream exactly as received — for the query `"a  b"` the upstream
parameter keeps the double space even though `_sanitize_query` would
collapse it to `"a b"`. -/
theorem claim7_counterexample :
    (searchNotes st0 upEmpty 0 qDbl 10 none).calls = [(qDbl, 20)] ∧
    sanitizeQuery qDbl = ['a', ' ', 'b'] ∧
    ¬ qDbl = ['a', ' ', 'b'] := by
  refine ⟨?_, by decide, by decide⟩
  rw [searchNotes_miss_eq st0 upEmpty 0 qDbl 10 none (by rw [st0_lookup]; rfl)]
  rfl

/-- C7 (amended).  `_sanitize_query` (which collapses whitespace and caps
the length at 200) exists but is never invoked: on a cache miss the
upstream receives the raw query unchanged (the cache key only strips and
lowercases it).  The cap property itself holds of the unused sanitizer:
its output never exceeds 200 characters. -/
theorem claim7_theorem (st : SearchState)
    (up : List Char → Nat → Option (List Char) → List Item) (now : ℚ)
    (q : List Char) (limit : Nat) (nb : Option (List Char))
    (hmiss : truthy (cacheGet (maybeCleanup st now) now (createCacheKey q limit nb)).1
      = false) :
    (searchNotes st up now q limit nb).calls = [(q, limit * 2)] ∧
    (sanitizeQuery q).length ≤ 200 := by
  constructor
  · rw [searchNotes_miss_eq st up now q limit nb hmiss]
    simp only [searchNotesMiss]
    by_cases hraw : up q (limit * 2) nb = []
    · rw [if_pos hraw]
    · rw [if_neg hraw]
  · unfold sanitizeQuery
    by_cases h0 : q = []
    · rw [if_pos h0]
      simp
    · rw [if_neg h0]
      by_cases h1 : 200 < (collapse q).length
      · rw [if_pos h1]
        exact List.length_take_le _ _
      · rw [if_neg h1]
        omega

/-- Witness for C7 on the double-space query against a fresh service. -/
theorem claim7_witness :
    (searchNotes st0 upEmpty 0 qDbl 10 none).calls = [(qDbl, 10 * 2)] ∧
    (sanitizeQuery qDbl).length ≤ 200 :=
  claim7_theorem st0 upEmpty 0 qDbl 10 none (by rw [st0_lookup]; rfl)

theorem unique_key {e1 e2 : List Char × ℚ × List ResultItem}
    {l : List (List Char × ℚ × List ResultItem)}
    (hwf : l.Pairwise fun a b => a.1 ≠ b.1) (h1 : e1 ∈ l) (h2 : e2 ∈ l)
    (hk : e1.1 = e2.1) : e1 = e2 := by
  induction l with
  | nil => cases h1
  | cons a l ih =>
    rcases List.pairwise_cons.1 hwf with ⟨ha, hl⟩
    rcases List.mem_cons.1 h1 with g1 | g1 <;> rcases List.mem_cons.1 h2 with g2 | g2
    · rw [g1, g2]
    · subst g1
      exact absurd hk (ha e2 g2)
    · subst g2
      exact absurd hk (Ne.symm (ha e1 g1))
    · exact ih hl g1 g2

theorem wf_maybeCleanup (st : SearchState) (now : ℚ) (hwf : wfCache st) :
    wfCache (maybeCleanup st now) := by
  by_cases h : 300 < now - st.lastCleanup
  · rw [maybeCleanup_pos st now h]
    exact List.Pairwise.sublist (List.filter_sublist _) hwf
  · rw [maybeCleanup_neg st now h]
    exact hwf

theorem wf_cacheGet (st : SearchState) (now : ℚ) (key : List Char)
    (hwf : wfCache st) : wfCache (cacheGet st now key).2 := by
  cases hfind : st.cache.find? (fun e => decide (e.1 = key)) with
  | none =>
    rw [cacheGet_none st now key hfind]
    exact hwf
  | some e0 =>
    by_cases hexp : st.ttl < now - e0.2.1
    · rw [cacheGet_expired st now key e0 hfind hexp]
      exact List.Pairwise.sublist (List.filter_sublist _) hwf
    · rw [cacheGet_fresh st now key e0 hfind hexp]
      exact hwf

theorem noHit_of_miss (st1 : SearchState) (now : ℚ) (key : List Char)
    (hwf : wfCache st1)
    (hmiss : truthy (cacheGet st1 now key).1 = false) :
    noHit (cacheGet st1 now key).2.cache key := by
  cases hfind : st1.cache.find? (fun e => decide (e.1 = key)) with
  | none =>
    rw [cacheGet_none st1 now key hfind]
    intro e he hk
    have hne := List.find?_eq_none.1 hfind e he
    simp only [decide_eq_true_eq] at hne
    exact absurd hk hne
  | some e0 =>
    have hkey0 : e0.1 = key := by
      have hp := List.find?_some hfind
      simpa using hp
    have hmem0 : e0 ∈ st1.cache := List.mem_of_find?_eq_some hfind
    by_cases hexp : st1.ttl < now - e0.2.1
    · rw [cacheGet_expired st1 now key e0 hfind hexp]
      intro e he hk
      have hin := (List.mem_filter.1 he).2
      simp only [decide_eq_true_eq] at hin
      exact absurd hk hin
    · rw [cacheGet_fresh st1 now key e0 hfind hexp] at hmiss ⊢
      have hitems : e0.2.2 = [] := by
        cases hval : e0.2.2 with
        | nil => rfl
        | cons a as =>
          rw [hval] at hmiss
          simp [truthy] at hmiss
      intro e he hk
      have heq : e = e0 := unique_key hwf he hmem0 (by rw [hk, hkey0])
      rw [heq]
      exact hitems

theorem miss_again (st2 : SearchState) (now2 : ℚ) (key : List Char)
    (hn : noHit st2.cache key) :
    truthy (cacheGet (maybeCleanup st2 now2) now2 key).1 = false := by
  have hn1 : noHit (maybeCleanup st2 now2).cache key := by
    by_cases h : 300 < now2 - st2.lastCleanup
    · rw [maybeCleanup_pos st2 now2 h]
      intro e he hk
      exact hn e (List.mem_filter.1 he).1 hk
    · rw [maybeCleanup_neg st2 now2 h]
      exact hn
  cases hfind : (maybeCleanup st2 now2).cache.find? (fun e => decide (e.1 = key)) with
  | none =>
    rw [cacheGet_none (maybeCleanup st2 now2) now2 key hfind]
    rfl
  | some e0 =>
    have hkey0 : e0.1 = key := by
      have hp := List.find?_some hfind
      simpa using hp
    have hmem0 : e0 ∈ (maybeCleanup st2 now2).cache := List.mem_of_find?_eq_some hfind
    have hitems : e0.2.2 = [] := hn1 e0 hmem0 hkey0
    by_cases hexp : (maybeCleanup st2 now2).ttl < now2 - e0.2.1
    · rw [cacheGet_expired (maybeCleanup st2 now2) now2 key e0 hfind hexp]
      rfl
    · rw [cacheGet_fresh (maybeCleanup st2 now2) now2 key e0 hfind hexp, hitems]
      rfl

/-- C10.  With an upstream returning no items: the result is empty, no
cache entry is written (the state is exactly the post-lookup state), and
— because a present-but-empty cached list is falsy and hence a miss — an
immediate repetition of the query contacts the upstream again. -/
theorem claim10_theorem (st : SearchState)
    (up : List Char → Nat → Option (List Char) → List Item) (now now2 : ℚ)
    (q : List Char) (limit : Nat) (nb : Option (List Char))
    (hwf : wfCache st)
    (hup : up q (limit * 2) nb = [])
    (hmiss : truthy (cacheGet (maybeCleanup st now) now (createCacheKey q limit nb)).1
      = false) :
    missNoWrite st up now now2 q limit nb := by
  have h1 := searchNotes_miss_eq st up now q limit nb hmiss
  have hbody : searchNotesMiss
      (cacheGet (maybeCleanup st now) now (createCacheKey q limit nb)).2
      up now q limit nb (createCacheKey q limit nb) =
      ⟨⟨[], 0, false⟩,
        (cacheGet (maybeCleanup st now) now (createCacheKey q limit nb)).2,
        [(q, limit * 2)]⟩ := by
    simp only [searchNotesMiss, hup]
    simp
  rw [missNoWrite, h1, hbody]
  refine ⟨rfl, rfl, rfl, rfl, rfl, ?_⟩
  have hwf1 : wfCache (maybeCleanup st now) := wf_maybeCleanup st now hwf
  have hn : noHit (cacheGet (maybeCleanup st now) now (createCacheKey q limit nb)).2.cache
      (createCacheKey q limit nb) :=
    noHit_of_miss (maybeCleanup st now) now (createCacheKey q limit nb) hwf1 hmiss
  have hm2 := miss_again
    (cacheGet (maybeCleanup st now) now (createCacheKey q limit nb)).2 now2
    (createCacheKey q limit nb) hn
  rw [searchNotes_miss_eq _ up now2 q limit nb hm2]
  simp only [searchNotesMiss, hup]
  simp

/-- Witness for C10: fresh service, always-empty upstream. -/
theorem claim10_witness : missNoWrite st0 upEmpty 0 1 ['x'] 10 none :=
  claim10_theorem st0 upEmpty 0 1 ['x'] 10 none List.Pairwise.nil rfl
    (by rw [st0_lookup]; rfl)

end JoplinCore
